import Mathlib

/-
Verification of the Idus product scraping and translation backend
(`backend/app/scraper.py`, `backend/app/translator.py`, `backend/app/models.py`)
against its natural-language specification.

The Python code is shallowly embedded: pure string manipulation is modelled on
`String.data` (lists of Unicode code points, matching Python string semantics),
stateful loops become folds over explicit state records, raised exceptions
become `Except`, and the external Gemini service (network plus model) is an
oracle packaged in a `GenClient` record.  Every definition mirrors one Python
function and is named after it (leading underscores dropped).
-/

set_option maxRecDepth 10000

/-! ### Python-string primitives

Python `str` operations used by the code, modelled on code-point lists so that
they compute by kernel reduction.  `pyStrip` models `str.strip()` (the code
only ever strips ASCII whitespace in practice), `containsSub` models the `in`
substring test, `pyLower` models `str.lower()` (ASCII case folding; URL inputs
are ASCII), `pyReplace` models `str.replace` (leftmost, non-overlapping),
`pyTake`/`pyDropChars` model slicing by code points. -/

def pyLen (s : String) : Nat := s.data.length

def pyLower (s : String) : String := ⟨s.data.map Char.toLower⟩

def pyStrip (s : String) : String :=
  ⟨((s.data.dropWhile Char.isWhitespace).reverse.dropWhile Char.isWhitespace).reverse⟩

def pyStartsWith (s pre : String) : Bool := pre.data.isPrefixOf s.data

def subScan (pat : List Char) : List Char → Bool
  | [] => pat.isPrefixOf []
  | c :: rest => pat.isPrefixOf (c :: rest) || subScan pat rest

def containsSub (pat s : String) : Bool := subScan pat.data s.data

def replaceFuel (pat rep : List Char) : Nat → List Char → List Char
  | _, [] => []
  | 0, l => l
  | fuel + 1, c :: rest =>
    if !pat.isEmpty && pat.isPrefixOf (c :: rest) then
      rep ++ replaceFuel pat rep fuel (List.drop (pat.length - 1) rest)
    else
      c :: replaceFuel pat rep fuel rest

def pyReplace (s pat rep : String) : String :=
  ⟨replaceFuel pat.data rep.data s.data.length s.data⟩

def pyTake (s : String) (n : Nat) : String := ⟨s.data.take n⟩

def pyDropChars (s : String) (n : Nat) : String := ⟨s.data.drop n⟩

def digitsToNat (l : List Char) : Nat :=
  l.foldl (fun a c => a * 10 + (c.toNat - '0'.toNat)) 0

/-! ### Data model (`backend/app/models.py`)

`ImageText.y_position` is `float(idx * 100)` in the source; it is only ever
constructed (never compared or consumed), so it is modelled as the natural
number `idx * 100`. -/

inductive TargetLanguage where
  | english
  | japanese
deriving DecidableEq, Repr

structure ProductOption where
  name : String
  values : List String
deriving DecidableEq, Repr

structure ImageText where
  image_url : String
  original_text : String
  translated_text : Option String
  order_index : Nat
  y_position : Nat
deriving DecidableEq, Repr

structure ProductData where
  url : String
  title : String
  artist_name : String
  price : String
  description : String
  options : List ProductOption
  detail_images : List String
  image_texts : List ImageText
deriving DecidableEq, Repr

structure TranslatedProduct where
  original : ProductData
  translated_title : String
  translated_description : String
  translated_options : List ProductOption
  translated_image_texts : List ImageText
  target_language : TargetLanguage
deriving DecidableEq, Repr

/-! ### Field extraction (`IdusScraper._get_title` etc., scraper.py 183-321)

Each extractor receives the data the browser evaluation would deliver:
`get_title` the result of `page.title()` (`none` models a raised exception),
and the other three the DOM texts their injected JavaScript iterates over,
plus an `exc` flag modelling an exception escaping `page.evaluate`. -/

def clean_title (t : String) : String := pyStrip (pyReplace t " | 아이디어스" "")

def get_title (raw : Option String) : String :=
  match raw with
  | none => "제목 없음"
  | some t =>
    if t ≠ "" then
      if clean_title t ≠ "" && 3 ≤ pyLen (clean_title t) then clean_title t
      else "제목 없음"
    else "제목 없음"

/-- DOM inputs of the `_get_artist` JavaScript: the `innerText` of each
`a[href*="/artist/"]` anchor in document order, the `innerText` of the first
element matched by each of the five class-name selectors (`none` when the
selector matches nothing), and the content of `meta[name="author"]`. -/
structure ArtistDom where
  artistLinks : List String
  classSels : List (Option String)
  metaAuthor : Option String
deriving DecidableEq, Repr

def linkOk (text : String) : Bool :=
  2 ≤ pyLen text && pyLen text ≤ 30 &&
  !containsSub "바로가기" text && !containsSub "작가" text &&
  !containsSub "홈" text && !containsSub "샵" text

def findLink : List String → Option String
  | [] => none
  | t :: ts =>
    let text := pyStrip t
    if linkOk text then some text else findLink ts

def findSel : List (Option String) → Option String
  | [] => none
  | none :: rest => findSel rest
  | some t :: rest =>
    let text := pyStrip t
    if 2 ≤ pyLen text && pyLen text ≤ 30 then some text else findSel rest

def artistJs (d : ArtistDom) : Option String :=
  match findLink d.artistLinks with
  | some t => some t
  | none =>
    match findSel d.classSels with
    | some t => some t
    | none =>
      match d.metaAuthor with
      | some c => if c ≠ "" && 2 ≤ pyLen c then some c else none
      | none => none

def get_artist (d : ArtistDom) (exc : Bool) : String :=
  if exc then "작가명 없음"
  else
    match artistJs d with
    | some r => if r ≠ "" then r else "작가명 없음"
    | none => "작가명 없음"

/-- One step of the JavaScript regex `([\d,]{3,})\s*원` (and, with `minLen = 4`,
of `([\d,]{4,})\s*원`): at each start position take the maximal run of digits
and commas, require it to be at least `minLen` long and to be followed by
optional whitespace and the character 원; the whole matched text is returned.
Scanning is leftmost-first, exactly as `RegExp.prototype.exec`. -/
def isPriceChar (c : Char) : Bool := c.isDigit || c == ','

def priceScan (minLen : Nat) : List Char → Option (List Char)
  | [] => none
  | c :: rest =>
    let run := (c :: rest).takeWhile isPriceChar
    if minLen ≤ run.length then
      let after := (c :: rest).drop run.length
      let ws := after.takeWhile Char.isWhitespace
      match after.drop ws.length with
      | '원' :: _ => some (run ++ ws ++ ['원'])
      | _ => priceScan minLen rest
    else priceScan minLen rest

/-- DOM inputs of the `_get_price` JavaScript: the `innerText` of every element
matched by the six price selectors, flattened in iteration order, and the full
`document.body.innerText`. -/
structure PriceDom where
  selTexts : List String
  bodyText : String
deriving DecidableEq, Repr

def firstPrice : List String → Option String
  | [] => none
  | t :: ts =>
    match priceScan 3 t.data with
    | some m => some (List.asString m)
    | none => firstPrice ts

def priceJs (d : PriceDom) : Option String :=
  match firstPrice d.selTexts with
  | some m => some m
  | none => (priceScan 4 d.bodyText.data).map List.asString

def get_price (d : PriceDom) (exc : Bool) : String :=
  if exc then "가격 정보 없음"
  else
    match priceJs d with
    | some r => if r ≠ "" then r else "가격 정보 없음"
    | none => "가격 정보 없음"

/-- One candidate step of the `_get_description` JavaScript: keep the longer
text when it exceeds 100 characters and carries neither UI-noise keyword. -/
def descStep (acc t : String) : String :=
  if pyLen acc < pyLen t && 100 < pyLen t &&
     !containsSub "로그인" t && !containsSub "장바구니" t
  then t else acc

def descJs (cands : List String) : Option String :=
  let longest := cands.foldl descStep ""
  if longest ≠ "" then some longest else none

def get_description (cands : List String) (exc : Bool) : String :=
  if exc then "설명 없음"
  else
    match descJs cands with
    | some t => if t ≠ "" then pyTake t 6000 else "설명 없음"
    | none => "설명 없음"

/-! ### Image canonicalization (`IdusScraper._filter_images`, scraper.py 1091-1181) -/

def exclude_patterns : List String :=
  ["/icon", "/sprite", "/logo", "/avatar", "/badge",
   "/emoji", "/button", "/arrow", "/profile",
   "facebook.", "twitter.", "instagram.", "kakao.", "naver.",
   "google.com", "apple.com",
   "/escrow", "/membership", "/banner",
   "/thumbnail", "/thumb_", "_thumb",
   "/review/", "/comment/",
   "/artist/", "/shop/",
   "data:image"]

def small_size_patterns : List String := ["_50.", "_100.", "_150.", "_200.", "_250."]

def isHexLower (c : Char) : Bool := c.isDigit || ('a' ≤ c && c ≤ 'f')

/-- The Python regex `files/([a-f0-9]+)`: leftmost occurrence of `files/`
followed by at least one lowercase-hex character; the captured group is the
maximal hex run. -/
def fidScan : List Char → Option (List Char)
  | [] => none
  | c :: rest =>
    if "files/".data.isPrefixOf (c :: rest) then
      let run := ((c :: rest).drop 6).takeWhile isHexLower
      if run.isEmpty then fidScan rest else some run
    else fidScan rest

def file_id_of (low : String) : Option String := (fidScan low.data).map List.asString

/-- The Python regex `_(\d+)\.`: leftmost underscore followed by at least one
digit and then a literal dot; the captured group is the digit run. -/
def sizeScan : List Char → Option (List Char)
  | [] => none
  | c :: rest =>
    if c = '_' then
      let run := rest.takeWhile Char.isDigit
      if !run.isEmpty && (rest.drop run.length).head? = some '.' then some run
      else sizeScan rest
    else sizeScan rest

def size_suffix (low : String) : Option Nat := (sizeScan low.data).map digitsToNat

/-- `int(size_match.group(1)) if size_match else 9999` - a URL without a size
suffix counts as the original (size 9999). -/
def size_of_low (low : String) : Nat := (size_suffix low).getD 9999

def anyPattern (pats : List String) (low : String) : Bool :=
  pats.any (fun p => containsSub p low)

/-- Loop state of `_filter_images`: the exact-URL dedup set `seen_urls`, the
per-file-id best entry `seen_file_ids` (id, size, url), and the output list. -/
structure FilterState where
  seen : List String
  ids : List (String × Nat × String)
  res : List String
deriving Repr

def lookupId (i : String) : List (String × Nat × String) → Option (Nat × String)
  | [] => none
  | e :: es => if e.1 = i then some e.2 else lookupId i es

def updateId (i : String) (v : Nat × String) :
    List (String × Nat × String) → List (String × Nat × String)
  | [] => []
  | e :: es => if e.1 = i then (i, v) :: es else e :: updateId i v es

def filterStep (st : FilterState) (img : String) : FilterState :=
  if !pyStartsWith img "http" then st
  else if img ∈ st.seen then st
  else
    let st1 : FilterState := { st with seen := img :: st.seen }
    let low := pyLower img
    if containsSub ".svg" low then st1
    else if anyPattern small_size_patterns low then st1
    else if anyPattern exclude_patterns low then st1
    else if containsSub "image.idus.com" low then
      match file_id_of low with
      | some fid =>
        let size := size_of_low low
        if (size_suffix low).isSome && size < 300 then st1
        else
          match lookupId fid st1.ids with
          | some (osz, ourl) =>
            if osz < size then
              { st1 with
                ids := updateId fid (size, img) st1.ids,
                res := (st1.res.erase ourl) ++ [img] }
            else st1
          | none =>
            { st1 with ids := (fid, size, img) :: st1.ids, res := st1.res ++ [img] }
      | none => { st1 with res := st1.res ++ [img] }
    else st1

def filter_images (images : List String) : List String :=
  ((images.foldl filterStep ⟨[], [], []⟩).res).take 15

/-- The gates of `_filter_images` that do not involve the file-id table:
absolute URL, not SVG, no small-size pattern, no exclusion pattern. -/
def passes_basic (img : String) : Bool :=
  pyStartsWith img "http" && !containsSub ".svg" (pyLower img) &&
  !anyPattern small_size_patterns (pyLower img) && !anyPattern exclude_patterns (pyLower img)

def idus_hit (img : String) : Bool := containsSub "image.idus.com" (pyLower img)

/-- `size_match and size < 300` of `_filter_images`. -/
def too_small (img : String) : Bool :=
  (size_suffix (pyLower img)).isSome && size_of_low (pyLower img) < 300

def fid_of (img : String) : Option String := file_id_of (pyLower img)

def size_of (img : String) : Nat := size_of_low (pyLower img)

/-- A candidate that reaches the per-file-id bookkeeping of `_filter_images`
with a file id: it passes every pattern gate, is an `image.idus.com` URL, and
is not dropped by the minimum-size gate. -/
def qualifies (img : String) : Bool := passes_basic img && idus_hit img && !too_small img

/-! ### Strict fallback filtering (`IdusScraper._filter_images_strict`, scraper.py 1183-1237) -/

def strict_exclude_patterns : List String :=
  ["/profile", "/avatar", "/icon", "/badge",
   "/thumb_", "/thumbnail", "_thumb",
   "/review", "/comment",
   "/artist/", "/shop/",
   "_50.", "_100.", "_150.", "_200.", "_250.", "_300."]

structure StrictState where
  seenIds : List String
  res : List String
deriving Repr

def strictStep (st : StrictState) (img : String) : StrictState :=
  if !pyStartsWith img "http" then st
  else
    let low := pyLower img
    if !containsSub "image.idus.com" low then st
    else
      match file_id_of low with
      | none => st
      | some fid =>
        if fid ∈ st.seenIds then st
        else if (size_suffix low).isSome && size_of_low low < 400 then st
        else if anyPattern strict_exclude_patterns low then st
        else { seenIds := fid :: st.seenIds, res := st.res ++ [img] }

def filter_images_strict (images : List String) : List String :=
  ((images.foldl strictStep ⟨[], []⟩).res).take 20

/-! ### Image-source arbitration in `scrape_product` (scraper.py 142-178)

The decision kernel of steps 4-5: when the position-based detail-area scan
produced at least one candidate, only those candidates are canonicalized; the
network capture is consulted only as a fallback.  The raw-markup regex scan
(`_extract_images_from_html`), the `__NUXT__` scan and the attribute/styling
scan (`_extract_images_from_dom`) have no call site in `scrape_product`. -/

def select_detail_images (posUrls netUrls : List String) : List String :=
  if 1 ≤ posUrls.length then filter_images posUrls
  else filter_images_strict netUrls

/-- Assembly of the `ProductData` returned by `scrape_product` (lines 169-178)
from the outcomes of the individual extraction steps.  Option harvesting is
not covered by any claim and enters as an opaque parameter. -/
def scrape_result (url : String) (titleRaw : Option String)
    (aDom : ArtistDom) (aExc : Bool) (pDom : PriceDom) (pExc : Bool)
    (dCands : List String) (dExc : Bool)
    (opts : List ProductOption) (posUrls netUrls : List String) : ProductData :=
  { url := url,
    title := get_title titleRaw,
    artist_name := get_artist aDom aExc,
    price := get_price pDom pExc,
    description := get_description dCands dExc,
    options := opts,
    detail_images := select_detail_images posUrls netUrls,
    image_texts := [] }

/-! ### Prompt templates (`backend/app/prompts/english.py`, `japanese.py`)

Each template is a fixed instruction text with a single `{text}` slot filled by
`str.format`.  The instruction bodies are long free-form prose that no claim
depends on; they are condensed here to their opening line and the text slot,
keeping the exact slot structure (instruction prefix, inserted text, closing
cue) of the source. -/

def ENGLISH_PROMPT (text : String) : String :=
  "You are an online seller creating a product description for idus, the largest handmade online marketplace in Asia.\nTranslate the Korean product description into English following this structured format.\n\nKorean Text to Translate:\n"
  ++ text ++ "\n\n---\n\nEnglish Translation:"

def ENGLISH_TITLE_PROMPT (text : String) : String :=
  "Translate this Korean product title to English.\nDo not add any explanation, just output the translated title.\n\nKorean: "
  ++ text ++ "\n\nEnglish:"

def ENGLISH_OPTION_PROMPT (text : String) : String :=
  "Translate these Korean product options to English.\n\nOptions to translate:\n"
  ++ text ++ "\n\nEnglish translations (one per line):"

def JAPANESE_PROMPT (text : String) : String :=
  "You are an online seller creating a product description to list your product on idus, the largest handmade online marketplace in Asia.\nTranslate the Korean product description into Japanese following the structured format.\n\nKorean Text to Translate:\n"
  ++ text ++ "\n\n---\n\nJapanese Translation:"

def JAPANESE_TITLE_PROMPT (text : String) : String :=
  "Translate this Korean product title to Japanese.\n\nKorean: "
  ++ text ++ "\n\nJapanese:"

def JAPANESE_OPTION_PROMPT (text : String) : String :=
  "Translate these Korean product options to Japanese.\n\nOptions to translate:\n"
  ++ text ++ "\n\nJapanese translations (one per line):"

/-! ### Translation orchestrator (`ProductTranslator`, translator.py)

The external google-genai service is an oracle: `genContent model prompt i`
models the outcome of the `i`-th `generate_content` attempt for a given prompt
(`error e` a raised exception with message `e`, `ok none` a response without
text, `ok (some t)` a response with text `t`), and `ocrCall url i` models the
combined httpx fetch plus vision call of `_ocr_image` for an image URL
(`ok none` covers a non-200 status or an empty model response).  Rate-limit
sleeps (`_wait_for_rate_limit`, `asyncio.sleep`) have no observable effect on
the data flow; the retry loop records its backoff waits explicitly. -/

structure GenClient where
  genContent : Option String → String → Nat → Except String (Option String)
  ocrCall : String → Nat → Except String (Option String)

/-- State of a `ProductTranslator` after construction: `client` is `None` or
the `genai.Client`, `initialized` is `_initialized`, `modelName` is
`_model_name` (selected by probing, `None` when probing failed). -/
structure ProductTranslator where
  client : Option GenClient
  initialized : Bool
  modelName : Option String

/-- `self._max_retries = 3`. -/
def max_retries : Nat := 3

/-- `"429" in error_str or "RESOURCE_EXHAUSTED" in error_str`. -/
def has429 (e : String) : Bool := containsSub "429" e || containsSub "RESOURCE_EXHAUSTED" e

def get_language_name : TargetLanguage → String
  | .english => "English"
  | .japanese => "Japanese"

def get_prompt (text : String) (lang : TargetLanguage) (ctx : String) : String :=
  match lang with
  | .japanese =>
    if ctx = "title" then JAPANESE_TITLE_PROMPT text
    else if ctx = "option" then JAPANESE_OPTION_PROMPT text
    else JAPANESE_PROMPT text
  | .english =>
    if ctx = "title" then ENGLISH_TITLE_PROMPT text
    else if ctx = "option" then ENGLISH_OPTION_PROMPT text
    else ENGLISH_PROMPT text

def prefixes_to_remove (lang : TargetLanguage) : List String :=
  let l := get_language_name lang
  [l ++ ":", l ++ " Translation:", "Translation:",
   "번역:", "Japanese:", "English:",
   "Japanese Translation:", "English Translation:"]

def stripPrefixList (lang : TargetLanguage) (r : String) : String :=
  (prefixes_to_remove lang).foldl
    (fun acc p => if pyStartsWith acc p then pyStrip (pyDropChars acc (pyLen p)) else acc) r

/-- `ProductTranslator._translate_text` (translator.py 262-297).  A missing
client raises `AttributeError` when `self.client.models` is evaluated; its
message carries no throttling marker. -/
def translate_text (tr : ProductTranslator) (text : String) (lang : TargetLanguage)
    (ctx : String) (attempt : Nat) : Except String String :=
  let prompt := get_prompt text lang ctx
  match tr.client with
  | none => .error "AttributeError: NoneType object has no attribute models"
  | some c =>
    match c.genContent tr.modelName prompt attempt with
    | .error e => .error e
    | .ok none => .ok text
    | .ok (some rtext) =>
      if rtext = "" then .ok text
      else .ok (stripPrefixList lang (pyStrip rtext))

/-- Observable outcome of `_translate_text_with_retry`: the returned string,
the number of `_translate_text` attempts made, and the backoff waits (in
seconds) slept after throttled attempts. -/
structure RetryOutcome where
  result : String
  attempts : Nat
  waits : List Nat
deriving DecidableEq, Repr

def retryAux (f : Nat → Except String String) (fallback : String) :
    Nat → Nat → List Nat → RetryOutcome
  | 0, done, ws => ⟨fallback, done, ws.reverse⟩
  | fuel + 1, done, ws =>
    match f done with
    | .ok r => ⟨r, done + 1, ws.reverse⟩
    | .error e =>
      if has429 e then retryAux f fallback fuel (done + 1) ((done + 1) * 12 :: ws)
      else ⟨fallback, done + 1, ws.reverse⟩

def sentinel_list : List String := ["제목 없음", "설명 없음", "가격 정보 없음", "작가명 없음"]

/-- `ProductTranslator._translate_text_with_retry` (translator.py 236-260). -/
def translate_text_with_retry (tr : ProductTranslator) (text : String)
    (lang : TargetLanguage) (ctx : String) : RetryOutcome :=
  if pyStrip text = "" then ⟨text, 0, []⟩
  else if text ∈ sentinel_list then ⟨text, 0, []⟩
  else retryAux (fun i => translate_text tr text lang ctx i) text max_retries 0 []

/-- `ProductTranslator.translate_single_text` (translator.py 423-425). -/
def translate_single_text (tr : ProductTranslator) (text : String)
    (lang : TargetLanguage) : String :=
  (translate_text_with_retry tr text lang "description").result

/-- `ProductTranslator._translate_options` (translator.py 299-319).  The
per-option `try` never fires: `_translate_text_with_retry` catches every
exception internally and list construction cannot raise. -/
def translate_options (tr : ProductTranslator) (opts : List ProductOption)
    (lang : TargetLanguage) : List ProductOption :=
  opts.map fun o =>
    { name := (translate_text_with_retry tr o.name lang "option").result,
      values := o.values.map fun v => (translate_text_with_retry tr v lang "option").result }

/-! ### OCR sub-pipeline (`_prioritize_high_res_images`, `_ocr_image`,
`_ocr_image_with_retry`, `_process_images`, translator.py 130-148, 321-421) -/

def isDigit59 (c : Char) : Bool := '5' ≤ c && c ≤ '9'

def isDigit19 (c : Char) : Bool := '1' ≤ c && c ≤ '9'

/-- After a leading `_` (resp. `/`), the alternation `([5-9]\d{2}|[1-9]\d{3})`
followed by `.` (resp. `/`). -/
def hrTail (close : Char) (l : List Char) : Bool :=
  match l with
  | d1 :: d2 :: d3 :: c4 :: rest =>
    (isDigit59 d1 && d2.isDigit && d3.isDigit && c4 = close) ||
    (isDigit19 d1 && d2.isDigit && d3.isDigit && c4.isDigit && rest.head? = some close)
  | _ => false

def hrScan (opener close : Char) : List Char → Bool
  | [] => false
  | c :: rest => (c = opener && hrTail close rest) || hrScan opener close rest

/-- `re.search(r'_([5-9]\d{2}|[1-9]\d{3})\.', low)` or
`re.search(r'/([5-9]\d{2}|[1-9]\d{3})/', low)`. -/
def isHighRes (img : String) : Bool :=
  let low := pyLower img
  hrScan '_' '.' low.data || hrScan '/' '/' low.data

/-- `ProductTranslator._prioritize_high_res_images` (translator.py 130-148). -/
def prioritize_high_res_images (images : List String) : List String :=
  images.filter isHighRes ++ images.filter (fun i => !isHighRes i)

/-- `ProductTranslator._ocr_image` (translator.py 380-421). -/
def ocr_image (tr : ProductTranslator) (url : String) (attempt : Nat) :
    Except String (Option String) :=
  match tr.client, tr.modelName with
  | some c, some _ =>
    match c.ocrCall url attempt with
    | .error e => .error e
    | .ok none => .ok none
    | .ok (some raw) =>
      let text := pyStrip raw
      if text = "NO_TEXT" || pyLen text < 5 then .ok none else .ok (some text)
  | _, _ => .ok none

def ocrRetryAux (f : Nat → Except String (Option String)) :
    Nat → Nat → Except String (Option String)
  | 0, _ => .ok none
  | fuel + 1, i =>
    match f i with
    | .ok r => .ok r
    | .error e => if has429 e then ocrRetryAux f fuel (i + 1) else .error e

/-- `ProductTranslator._ocr_image_with_retry` (translator.py 365-378): throttled
attempts are retried up to the bound and end in `None`; any other exception is
re-raised. -/
def ocr_image_with_retry (tr : ProductTranslator) (url : String) :
    Except String (Option String) :=
  ocrRetryAux (fun i => ocr_image tr url i) max_retries 0

def mkImageText (tr : ProductTranslator) (lang : TargetLanguage)
    (url t : String) (idx : Nat) : ImageText :=
  { image_url := url,
    original_text := t,
    translated_text := some (translate_text_with_retry tr t lang "ocr").result,
    order_index := idx,
    y_position := idx * 100 }

/-- The enumerated loop body of `_process_images`: each image is handled inside
`try`, so an exception from `_ocr_image_with_retry` skips exactly that image. -/
def processGo (tr : ProductTranslator) (lang : TargetLanguage) :
    List String → Nat → List ImageText
  | [], _ => []
  | url :: rest, idx =>
    match ocr_image_with_retry tr url with
    | .ok (some t) =>
      if 10 < pyLen t then
        mkImageText tr lang url t idx :: processGo tr lang rest (idx + 1)
      else processGo tr lang rest (idx + 1)
    | _ => processGo tr lang rest (idx + 1)

/-- The stable `results.sort(key=lambda x: x.order_index)` at the end of
`_process_images`, as insertion sort. -/
def insertIT (x : ImageText) : List ImageText → List ImageText
  | [] => [x]
  | y :: ys => if y.order_index ≤ x.order_index then y :: insertIT x ys else x :: y :: ys

def sortIT : List ImageText → List ImageText
  | [] => []
  | x :: xs => insertIT x (sortIT xs)

/-- `ProductTranslator._process_images` (translator.py 321-363). -/
def process_images (tr : ProductTranslator) (urls : List String)
    (lang : TargetLanguage) : List ImageText :=
  sortIT (processGo tr lang urls 0)

/-- `ProductTranslator.translate_product` (translator.py 174-234).  `maxOcr`
is `int(os.getenv("MAX_OCR_IMAGES", "10"))`, passed in as the environment is
external. -/
def translate_product (tr : ProductTranslator) (maxOcr : Nat) (pd : ProductData)
    (lang : TargetLanguage) : TranslatedProduct :=
  if !tr.initialized || tr.client.isNone then
    { original := pd,
      translated_title := pd.title,
      translated_description := pd.description,
      translated_options := pd.options,
      translated_image_texts := [],
      target_language := lang }
  else
    { original := pd,
      translated_title := (translate_text_with_retry tr pd.title lang "title").result,
      translated_description := (translate_text_with_retry tr pd.description lang "description").result,
      translated_options := translate_options tr pd.options lang,
      translated_image_texts :=
        process_images tr ((prioritize_high_res_images pd.detail_images).take maxOcr) lang,
      target_language := lang }

/-! ### Concrete instances used by witnesses and counterexamples -/

/-- A client whose text and vision calls always succeed. -/
def sampleClient : GenClient :=
  { genContent := fun _ _ _ => .ok (some "OK translated text"),
    ocrCall := fun _ _ => .ok (some "충분히 긴 한국어 텍스트입니다") }

def sampleTr : ProductTranslator :=
  { client := some sampleClient, initialized := true, modelName := some "gemini-2.0-flash" }

/-- A translator whose construction found no API key: no client, not
initialized, no model. -/
def offTr : ProductTranslator := { client := none, initialized := false, modelName := none }

/-- A client that is throttled on every call. -/
def throttleClient : GenClient :=
  { genContent := fun _ _ _ => .error "429 RESOURCE_EXHAUSTED quota",
    ocrCall := fun _ _ => .error "429 RESOURCE_EXHAUSTED quota" }

def throttleTr : ProductTranslator :=
  { client := some throttleClient, initialized := true, modelName := some "gemini-2.0-flash" }

/-- A client that fails every call with a non-throttling error. -/
def failClient : GenClient :=
  { genContent := fun _ _ _ => .error "boom network fail",
    ocrCall := fun _ _ => .error "boom network fail" }

def failTr : ProductTranslator :=
  { client := some failClient, initialized := true, modelName := some "gemini-2.0-flash" }

def imgPlain : String := "https://image.idus.com/image/files/aabb01.jpg"

def imgHigh : String := "https://image.idus.com/image/files/ccdd02_800.jpg"

def samplePd : ProductData :=
  { url := "https://www.idus.com/v2/product/x",
    title := "수제 지갑",
    artist_name := "공방",
    price := "45,000원",
    description := "설명입니다",
    options := [⟨"색상", ["브라운"]⟩],
    detail_images := [imgPlain, imgHigh],
    image_texts := [] }

/-- A client that fails only on one specific image URL. -/
def mixedClient : GenClient :=
  { genContent := fun _ _ _ => .ok (some "OK translated text"),
    ocrCall := fun url _ =>
      if url = "https://image.idus.com/image/files/bad999.jpg" then .error "boom network fail"
      else .ok (some "충분히 긴 한국어 텍스트입니다") }

def mixedTr : ProductTranslator :=
  { client := some mixedClient, initialized := true, modelName := some "gemini-2.0-flash" }

def badUrl : String := "https://image.idus.com/image/files/bad999.jpg"

def goodUrl1 : String := "https://image.idus.com/image/files/good001.jpg"

def goodUrl2 : String := "https://image.idus.com/image/files/good002.jpg"

def uNoSize : String := "https://image.idus.com/image/files/abc123.jpg"

def u800 : String := "https://image.idus.com/image/files/abc123_800.jpg"

def u100 : String := "https://image.idus.com/image/files/abc123_100.jpg"

def u300 : String := "https://image.idus.com/image/files/abc123_300.jpg"

def posUrlEx : String := "https://image.idus.com/image/files/cafe02_800.jpg"

def netUrlEx : String := "https://image.idus.com/image/files/beef01_800.jpg"

/-! ### General helper lemmas -/

theorem retryAux_succ (f : Nat → Except String String) (fb : String)
    (fuel done : Nat) (ws : List Nat) :
    retryAux f fb (fuel + 1) done ws =
      match f done with
      | .ok r => ⟨r, done + 1, ws.reverse⟩
      | .error e =>
        if has429 e then retryAux f fb fuel (done + 1) ((done + 1) * 12 :: ws)
        else ⟨fb, done + 1, ws.reverse⟩ := rfl

theorem retry_result_of_error_head (tr : ProductTranslator) (text : String)
    (lang : TargetLanguage) (ctx : String) (e : String)
    (herr : translate_text tr text lang ctx 0 = .error e) (h429 : has429 e = false) :
    (translate_text_with_retry tr text lang ctx).result = text := by
  unfold translate_text_with_retry
  by_cases h1 : pyStrip text = ""
  · simp [h1]
  · rw [if_neg h1]
    by_cases h2 : text ∈ sentinel_list
    · simp [h2]
    · rw [if_neg h2]
      have h3 : max_retries = 2 + 1 := rfl
      rw [h3, retryAux_succ, herr]
      simp [h429]

/-! ### Claim theorems -/

/-- Claim C8: `translate_product` never alters the input record (the embedding
is pure and neither branch rebuilds `product_data`); the returned
`TranslatedProduct` carries the input verbatim in `original` and the requested
target language in `target_language`, on both the initialized and the
passthrough path. -/
theorem C8_original_kept_verbatim (tr : ProductTranslator) (maxOcr : Nat)
    (pd : ProductData) (lang : TargetLanguage) :
    (translate_product tr maxOcr pd lang).original = pd ∧
    (translate_product tr maxOcr pd lang).target_language = lang := by
  unfold translate_product
  by_cases h : (!tr.initialized || tr.client.isNone) = true
  · rw [if_pos h]; exact ⟨rfl, rfl⟩
  · rw [if_neg h]; exact ⟨rfl, rfl⟩

/-- Claim C10: even on an initialized orchestrator, an input that is empty or
whitespace-only, or equal to one of the four extraction sentinels, is returned
unchanged with zero `_translate_text` attempts, i.e. nothing is sent to the
translation backend. -/
theorem C10_sentinels_never_sent (tr : ProductTranslator) (text : String)
    (lang : TargetLanguage) (ctx : String)
    (h : pyStrip text = "" ∨ text ∈ sentinel_list) :
    translate_text_with_retry tr text lang ctx = ⟨text, 0, []⟩ := by
  unfold translate_text_with_retry
  rcases h with h | h
  · rw [if_pos h]
  · by_cases h1 : pyStrip text = ""
    · rw [if_pos h1]
    · rw [if_neg h1, if_pos h]

theorem C10_witness :
    (pyStrip "제목 없음" = "" ∨ ("제목 없음" : String) ∈ sentinel_list) ∧
    translate_text_with_retry sampleTr "제목 없음" TargetLanguage.english "title" =
      ⟨"제목 없음", 0, []⟩ :=
  ⟨Or.inr (by decide),
   C10_sentinels_never_sent sampleTr "제목 없음" TargetLanguage.english "title"
     (Or.inr (by decide))⟩

/-- Claim C2: a translator left uninitialized (construction selected no client,
or model probing failed, leaving `_initialized` false and `_model_name` `None`)
is a passthrough: `translate_product` returns the original title, description
and options with no image texts, and `translate_single_text` returns its input
unchanged for every input including the empty string.  The hypothesis `hsdk`
models the google-genai SDK raising a non-throttling error when invoked with
`model=None` (which `_translate_text` then swallows, returning the input); when
no client exists at all, the `AttributeError` path needs no assumption. -/
theorem C2_uninitialized_passthrough (tr : ProductTranslator) (maxOcr : Nat)
    (pd : ProductData) (lang : TargetLanguage) (text : String)
    (huninit : tr.initialized = false ∨ tr.client = none)
    (hmodel : tr.initialized = false → tr.modelName = none)
    (hsdk : ∀ c, tr.client = some c → ∀ prompt i,
      ∃ e, c.genContent none prompt i = .error e ∧ has429 e = false) :
    translate_product tr maxOcr pd lang =
      { original := pd,
        translated_title := pd.title,
        translated_description := pd.description,
        translated_options := pd.options,
        translated_image_texts := [],
        target_language := lang } ∧
    translate_single_text tr text lang = text := by
  constructor
  · unfold translate_product
    have hcond : (!tr.initialized || tr.client.isNone) = true := by
      rcases huninit with h | h
      · rw [h]; rfl
      · rw [h]; simp
    rw [if_pos hcond]
  · unfold translate_single_text
    match hcl : tr.client with
    | none =>
      refine retry_result_of_error_head tr text lang "description"
        "AttributeError: NoneType object has no attribute models" ?_ (by decide)
      unfold translate_text
      rw [hcl]
    | some c =>
      have hinit : tr.initialized = false := by
        rcases huninit with h | h
        · exact h
        · rw [h] at hcl; cases hcl
      have hmn : tr.modelName = none := hmodel hinit
      obtain ⟨e, he, h429⟩ :=
        hsdk c hcl (get_prompt text lang "description") 0
      refine retry_result_of_error_head tr text lang "description" e ?_ h429
      unfold translate_text
      rw [hcl]
      simp only [hmn, he]

theorem C2_witness :
    translate_product offTr 10 samplePd TargetLanguage.english =
      { original := samplePd,
        translated_title := samplePd.title,
        translated_description := samplePd.description,
        translated_options := samplePd.options,
        translated_image_texts := [],
        target_language := TargetLanguage.english } ∧
    translate_single_text offTr "안녕하세요 테스트" TargetLanguage.english = "안녕하세요 테스트" :=
  C2_uninitialized_passthrough offTr 10 samplePd TargetLanguage.english "안녕하세요 테스트"
    (Or.inr rfl) (fun _ => rfl) (fun _ hc => nomatch hc)

/-- Claim C3: with an eligible input (non-blank, non-sentinel, so external
calls actually happen), `_translate_text_with_retry` is total and returns a
`RetryOutcome` (no exception can escape); if every attempt raises a throttling
error it makes exactly `_max_retries = 3` attempts with linearly increasing
waits 12, 24, 36 and returns the input unchanged; a non-throttling failure at
any attempt stops immediately (no further attempts) and returns the input
unchanged. -/
theorem C3_throttle_retry_bound (tr : ProductTranslator) (text : String)
    (lang : TargetLanguage) (ctx : String)
    (hne : pyStrip text ≠ "") (hsen : text ∉ sentinel_list) :
    ((∀ i, i < max_retries →
        ∃ e, translate_text tr text lang ctx i = .error e ∧ has429 e = true) →
      translate_text_with_retry tr text lang ctx = ⟨text, max_retries, [12, 24, 36]⟩) ∧
    (∀ e, translate_text tr text lang ctx 0 = .error e → has429 e = false →
      translate_text_with_retry tr text lang ctx = ⟨text, 1, []⟩) ∧
    (∀ e0 e1, translate_text tr text lang ctx 0 = .error e0 → has429 e0 = true →
      translate_text tr text lang ctx 1 = .error e1 → has429 e1 = false →
      translate_text_with_retry tr text lang ctx = ⟨text, 2, [12]⟩) ∧
    (∀ e0 e1 e2, translate_text tr text lang ctx 0 = .error e0 → has429 e0 = true →
      translate_text tr text lang ctx 1 = .error e1 → has429 e1 = true →
      translate_text tr text lang ctx 2 = .error e2 → has429 e2 = false →
      translate_text_with_retry tr text lang ctx = ⟨text, 3, [12, 24]⟩) := by
  have hunfold : translate_text_with_retry tr text lang ctx =
      retryAux (fun i => translate_text tr text lang ctx i) text max_retries 0 [] := by
    unfold translate_text_with_retry
    rw [if_neg hne, if_neg hsen]
  have h3 : max_retries = 2 + 1 := rfl
  have h2 : (2 : Nat) = 1 + 1 := rfl
  have h1 : (1 : Nat) = 0 + 1 := rfl
  refine ⟨?_, ?_, ?_, ?_⟩
  · intro hall
    obtain ⟨e0, he0, ht0⟩ := hall 0 (by decide)
    obtain ⟨e1, he1, ht1⟩ := hall 1 (by decide)
    obtain ⟨e2, he2, ht2⟩ := hall 2 (by decide)
    rw [hunfold, h3, retryAux_succ, he0]
    simp only [ht0, if_true]
    rw [h2, retryAux_succ, he1]
    simp only [ht1, if_true]
    rw [h1, retryAux_succ, he2]
    simp only [ht2, if_true]
    rfl
  · intro e he h429
    rw [hunfold, h3, retryAux_succ, he]
    simp [h429]
  · intro e0 e1 he0 ht0 he1 h429
    rw [hunfold, h3, retryAux_succ, he0]
    simp only [ht0, if_true]
    rw [h2, retryAux_succ, he1]
    simp [h429]
  · intro e0 e1 e2 he0 ht0 he1 ht1 he2 h429
    rw [hunfold, h3, retryAux_succ, he0]
    simp only [ht0, if_true]
    rw [h2, retryAux_succ, he1]
    simp only [ht1, if_true]
    rw [h1, retryAux_succ, he2]
    simp [h429]

theorem C3_witness :
    pyStrip "안녕하세요" ≠ "" ∧ ("안녕하세요" : String) ∉ sentinel_list ∧
    translate_text_with_retry throttleTr "안녕하세요" TargetLanguage.english "title" =
      ⟨"안녕하세요", max_retries, [12, 24, 36]⟩ :=
  ⟨by decide, by decide,
   (C3_throttle_retry_bound throttleTr "안녕하세요" TargetLanguage.english "title"
      (by decide) (by decide)).1
     (fun i _ => ⟨"429 RESOURCE_EXHAUSTED quota", rfl, by decide⟩)⟩

theorem mk_ne_empty_of_ne_nil (l : List Char) (h : l ≠ []) : (⟨l⟩ : String) ≠ "" :=
  fun heq => h (congrArg String.data heq)

theorem data_ne_nil_of_ne_empty (t : String) (h : t ≠ "") : t.data ≠ [] := by
  intro hd
  apply h
  cases t with
  | mk l =>
    have hl : l = [] := hd
    rw [hl]

theorem pyTake_ne_empty (t : String) (n : Nat) (hn : n ≠ 0) (ht : t ≠ "") :
    pyTake t n ≠ "" := by
  unfold pyTake
  apply mk_ne_empty_of_ne_nil
  intro habs
  rcases List.take_eq_nil_iff.mp habs with h | h
  · exact hn h
  · exact data_ne_nil_of_ne_empty t ht h

theorem get_title_ne (raw : Option String) : get_title raw ≠ "" := by
  unfold get_title
  split
  · decide
  · split
    · split
      · rename_i h2
        simp only [Bool.and_eq_true, decide_eq_true_eq] at h2
        exact h2.1
      · decide
    · decide

theorem get_artist_ne (d : ArtistDom) (exc : Bool) : get_artist d exc ≠ "" := by
  unfold get_artist
  split
  · decide
  · split
    · split
      · rename_i h; exact h
      · decide
    · decide

theorem get_price_ne (d : PriceDom) (exc : Bool) : get_price d exc ≠ "" := by
  unfold get_price
  split
  · decide
  · split
    · split
      · rename_i h; exact h
      · decide
    · decide

theorem get_description_ne (cands : List String) (exc : Bool) :
    get_description cands exc ≠ "" := by
  unfold get_description
  split
  · decide
  · split
    · split
      · rename_i h
        exact pyTake_ne_empty _ 6000 (by decide) h
      · decide
    · decide

/-- Claim C1: every `ProductData` assembled by `scrape_product` has non-empty
`title`, `artist_name`, `price` and `description`; when an extraction strategy
finds nothing (the evaluation raises, or its JavaScript returns null), the
field carries its fixed sentinel string, never null or the empty string. -/
theorem C1_fields_nonempty_or_sentinel (url : String) (titleRaw : Option String)
    (aDom : ArtistDom) (aExc : Bool) (pDom : PriceDom) (pExc : Bool)
    (dCands : List String) (dExc : Bool) (opts : List ProductOption)
    (posUrls netUrls : List String) :
    ((scrape_result url titleRaw aDom aExc pDom pExc dCands dExc opts posUrls netUrls).title ≠ "" ∧
     (scrape_result url titleRaw aDom aExc pDom pExc dCands dExc opts posUrls netUrls).artist_name ≠ "" ∧
     (scrape_result url titleRaw aDom aExc pDom pExc dCands dExc opts posUrls netUrls).price ≠ "" ∧
     (scrape_result url titleRaw aDom aExc pDom pExc dCands dExc opts posUrls netUrls).description ≠ "") ∧
    (titleRaw = none →
      (scrape_result url titleRaw aDom aExc pDom pExc dCands dExc opts posUrls netUrls).title = "제목 없음") ∧
    (aExc = true ∨ artistJs aDom = none →
      (scrape_result url titleRaw aDom aExc pDom pExc dCands dExc opts posUrls netUrls).artist_name = "작가명 없음") ∧
    (pExc = true ∨ priceJs pDom = none →
      (scrape_result url titleRaw aDom aExc pDom pExc dCands dExc opts posUrls netUrls).price = "가격 정보 없음") ∧
    (dExc = true ∨ descJs dCands = none →
      (scrape_result url titleRaw aDom aExc pDom pExc dCands dExc opts posUrls netUrls).description = "설명 없음") := by
  refine ⟨⟨get_title_ne titleRaw, get_artist_ne aDom aExc, get_price_ne pDom pExc,
          get_description_ne dCands dExc⟩, ?_, ?_, ?_, ?_⟩
  · intro h
    show get_title titleRaw = "제목 없음"
    rw [h]
    rfl
  · intro h
    show get_artist aDom aExc = "작가명 없음"
    rcases h with h | h
    · rw [h]; rfl
    · unfold get_artist
      rw [h]
      split <;> rfl
  · intro h
    show get_price pDom pExc = "가격 정보 없음"
    rcases h with h | h
    · rw [h]; rfl
    · unfold get_price
      rw [h]
      split <;> rfl
  · intro h
    show get_description dCands dExc = "설명 없음"
    rcases h with h | h
    · rw [h]; rfl
    · unfold get_description
      rw [h]
      split <;> rfl

theorem C1_witness :
    (scrape_result "u" none ⟨[], [], none⟩ false ⟨[], ""⟩ false [] false [] [] []).title = "제목 없음" ∧
    (scrape_result "u" none ⟨[], [], none⟩ false ⟨[], ""⟩ false [] false [] [] []).artist_name = "작가명 없음" ∧
    (scrape_result "u" none ⟨[], [], none⟩ false ⟨[], ""⟩ false [] false [] [] []).price = "가격 정보 없음" ∧
    (scrape_result "u" none ⟨[], [], none⟩ false ⟨[], ""⟩ false [] false [] [] []).description = "설명 없음" ∧
    (scrape_result "u" none ⟨[], [], none⟩ false ⟨[], ""⟩ false [] false [] [] []).title ≠ "" := by
  have h := C1_fields_nonempty_or_sentinel "u" none ⟨[], [], none⟩ false ⟨[], ""⟩ false [] false [] [] []
  exact ⟨h.2.1 rfl, h.2.2.1 (Or.inr rfl), h.2.2.2.1 (Or.inr rfl), h.2.2.2.2 (Or.inr rfl), h.1.1⟩

theorem insertIT_mem (x : ImageText) (l : List ImageText) (z : ImageText) :
    z ∈ insertIT x l ↔ z = x ∨ z ∈ l := by
  induction l with
  | nil => simp [insertIT]
  | cons y ys ih =>
    unfold insertIT
    split
    · simp only [List.mem_cons, ih]
      tauto
    · simp only [List.mem_cons]

theorem sortIT_mem (l : List ImageText) (z : ImageText) : z ∈ sortIT l ↔ z ∈ l := by
  induction l with
  | nil => simp [sortIT]
  | cons x xs ih =>
    unfold sortIT
    rw [insertIT_mem, ih]
    simp

theorem insertIT_head_gt (x : ImageText) (l : List ImageText)
    (h : ∀ y ∈ l, x.order_index < y.order_index) : insertIT x l = x :: l := by
  cases l with
  | nil => rfl
  | cons y ys =>
    have hy : ¬ (y.order_index ≤ x.order_index) :=
      not_le.mpr (h y (List.mem_cons_self y ys))
    unfold insertIT
    rw [if_neg hy]

theorem sortIT_eq_self (l : List ImageText)
    (h : List.Pairwise (fun a b => a.order_index < b.order_index) l) : sortIT l = l := by
  induction l with
  | nil => rfl
  | cons x xs ih =>
    rw [List.pairwise_cons] at h
    unfold sortIT
    rw [ih h.2, insertIT_head_gt x xs h.1]

theorem processGo_bounds (tr : ProductTranslator) (lang : TargetLanguage)
    (urls : List String) (k : Nat) :
    ∀ it ∈ processGo tr lang urls k,
      k ≤ it.order_index ∧ it.order_index < k + urls.length := by
  induction urls generalizing k with
  | nil => intro it h; exact absurd h (by simp [processGo])
  | cons url rest ih =>
    intro it hmem
    unfold processGo at hmem
    have step : ∀ h2 : it ∈ processGo tr lang rest (k + 1),
        k ≤ it.order_index ∧ it.order_index < k + (url :: rest).length := by
      intro h2
      have := ih (k + 1) it h2
      constructor
      · omega
      · simp only [List.length_cons]; omega
    split at hmem
    · split at hmem
      · rcases List.mem_cons.mp hmem with h1 | h2
        · subst h1
          simp only [mkImageText, List.length_cons]
          omega
        · exact step h2
      · exact step hmem
    · exact step hmem

theorem processGo_pairwise (tr : ProductTranslator) (lang : TargetLanguage)
    (urls : List String) (k : Nat) :
    List.Pairwise (fun a b => a.order_index < b.order_index) (processGo tr lang urls k) := by
  induction urls generalizing k with
  | nil => simp [processGo]
  | cons url rest ih =>
    unfold processGo
    split
    · split
      · rw [List.pairwise_cons]
        refine ⟨?_, ih (k + 1)⟩
        intro it hmem
        have := processGo_bounds tr lang rest (k + 1) it hmem
        simp only [mkImageText]
        omega
      · exact ih (k + 1)
    · exact ih (k + 1)

theorem processGo_cons (tr : ProductTranslator) (lang : TargetLanguage)
    (u : String) (rest : List String) (k : Nat) :
    processGo tr lang (u :: rest) k =
      match ocr_image_with_retry tr u with
      | .ok (some t) =>
        if 10 < pyLen t then mkImageText tr lang u t k :: processGo tr lang rest (k + 1)
        else processGo tr lang rest (k + 1)
      | _ => processGo tr lang rest (k + 1) := rfl

theorem processGo_append (tr : ProductTranslator) (lang : TargetLanguage)
    (us vs : List String) (k : Nat) :
    processGo tr lang (us ++ vs) k =
      processGo tr lang us k ++ processGo tr lang vs (k + us.length) := by
  induction us generalizing k with
  | nil => simp [processGo]
  | cons u rest ih =>
    rw [List.cons_append, processGo_cons, processGo_cons]
    have harith : k + 1 + rest.length = k + (rest.length + 1) := by omega
    rcases hocr : ocr_image_with_retry tr u with e | o
    · simp only [hocr, ih (k + 1), List.length_cons, harith]
    · rcases o with _ | t
      · simp only [hocr, ih (k + 1), List.length_cons, harith]
      · simp only [hocr]
        by_cases hlen : 10 < pyLen t
        · simp only [if_pos hlen, ih (k + 1), List.length_cons, harith, List.cons_append]
        · simp only [if_neg hlen, ih (k + 1), List.length_cons, harith]

theorem processGo_position (tr : ProductTranslator) (lang : TargetLanguage)
    (urls : List String) (k : Nat) :
    ∀ it ∈ processGo tr lang urls k,
      k ≤ it.order_index ∧ urls.get? (it.order_index - k) = some it.image_url := by
  induction urls generalizing k with
  | nil => intro it h; exact absurd h (by simp [processGo])
  | cons url rest ih =>
    intro it hmem
    unfold processGo at hmem
    have step : ∀ h2 : it ∈ processGo tr lang rest (k + 1),
        k ≤ it.order_index ∧ (url :: rest).get? (it.order_index - k) = some it.image_url := by
      intro h2
      obtain ⟨hle, hget⟩ := ih (k + 1) it h2
      refine ⟨by omega, ?_⟩
      have : it.order_index - k = (it.order_index - (k + 1)) + 1 := by omega
      rw [this]
      simpa using hget
    split at hmem
    · split at hmem
      · rcases List.mem_cons.mp hmem with h1 | h2
        · subst h1
          simp [mkImageText]
        · exact step h2
      · exact step hmem
    · exact step hmem

/-- Claim C6 as stated is false (see `C6_counterexample`); amended: the
`order_index` of every `ImageText` produced by `translate_product` is the
position of its source image in the list actually passed to `_process_images`,
namely the high-resolution-prioritized, `MAX_OCR_IMAGES`-truncated reordering
of `detail_images`; sorting by `order_index` therefore reconstructs that
prioritized order, not document order. -/
theorem C6_order_index_prioritized_position (tr : ProductTranslator) (maxOcr : Nat)
    (pd : ProductData) (lang : TargetLanguage) (it : ImageText)
    (hmem : it ∈ (translate_product tr maxOcr pd lang).translated_image_texts) :
    ((prioritize_high_res_images pd.detail_images).take maxOcr).get? it.order_index =
      some it.image_url := by
  unfold translate_product at hmem
  by_cases h : (!tr.initialized || tr.client.isNone) = true
  · rw [if_pos h] at hmem
    exact absurd hmem (by simp)
  · rw [if_neg h] at hmem
    have hmem2 : it ∈ process_images tr
        ((prioritize_high_res_images pd.detail_images).take maxOcr) lang := hmem
    unfold process_images at hmem2
    have hmem3 := (sortIT_mem _ it).mp hmem2
    obtain ⟨hle, hget⟩ := processGo_position tr lang
      ((prioritize_high_res_images pd.detail_images).take maxOcr) 0 it hmem3
    simpa using hget

/-- Claim C6, as stated, is false on the code: with a normal-resolution image
followed by a high-resolution one, `_prioritize_high_res_images` moves the
high-resolution image to the front before OCR, so its `order_index` is 0 while
its position in the document-ordered `detail_images` is 1. -/
theorem C6_counterexample :
    ¬ (∀ it ∈ (translate_product sampleTr 10 samplePd TargetLanguage.english).translated_image_texts,
        samplePd.detail_images.get? it.order_index = some it.image_url) := by decide

theorem C6_witness :
    ((prioritize_high_res_images samplePd.detail_images).take 10).get? 0 = some imgHigh :=
  C6_order_index_prioritized_position sampleTr 10 samplePd TargetLanguage.english
    ⟨imgHigh, "충분히 긴 한국어 텍스트입니다", some "OK translated text", 0, 0⟩ (by decide)

/-- Claim C7: a failure while processing one image (a non-throttling fetch or
decode exception re-raised by `_ocr_image_with_retry`) skips exactly that
image: `_process_images` is total (the per-image `try` catches the exception,
so it never propagates), the preceding images contribute their results
unchanged, and every subsequent image is still processed, with its index
continuing past the failed image. -/
theorem C7_image_failure_isolated (tr : ProductTranslator) (lang : TargetLanguage)
    (us vs : List String) (u e : String)
    (herr : ocr_image_with_retry tr u = .error e) :
    process_images tr (us ++ u :: vs) lang =
      processGo tr lang us 0 ++ processGo tr lang vs (us.length + 1) := by
  unfold process_images
  have h2 : processGo tr lang (u :: vs) us.length = processGo tr lang vs (us.length + 1) := by
    rw [processGo_cons, herr]
  rw [processGo_append, Nat.zero_add, h2]
  apply sortIT_eq_self
  rw [List.pairwise_append]
  refine ⟨processGo_pairwise tr lang us 0, processGo_pairwise tr lang vs (us.length + 1), ?_⟩
  intro a ha b hb
  have hua := processGo_bounds tr lang us 0 a ha
  have hvb := processGo_bounds tr lang vs (us.length + 1) b hb
  omega

theorem C7_witness :
    ocr_image_with_retry mixedTr badUrl = .error "boom network fail" ∧
    process_images mixedTr [goodUrl1, badUrl, goodUrl2] TargetLanguage.english =
      processGo mixedTr TargetLanguage.english [goodUrl1] 0 ++
      processGo mixedTr TargetLanguage.english [goodUrl2] 2 :=
  ⟨rfl,
   C7_image_failure_isolated mixedTr TargetLanguage.english [goodUrl1] [goodUrl2]
     badUrl "boom network fail" rfl⟩

/-! ### Association-list lemmas for the `seen_file_ids` table -/

theorem lookupId_mem (i : String) (l : List (String × Nat × String)) (p : Nat × String)
    (h : lookupId i l = some p) : (i, p) ∈ l := by
  induction l with
  | nil => cases h
  | cons e es ih =>
    unfold lookupId at h
    split at h
    · rename_i heq
      cases h
      rcases e with ⟨j, w⟩
      simp only at heq
      rw [heq]
      exact List.mem_cons_self _ _
    · exact List.mem_cons_of_mem e (ih h)

theorem lookupId_none_not_mem (i : String) (l : List (String × Nat × String))
    (h : lookupId i l = none) (p : Nat × String) : (i, p) ∉ l := by
  induction l with
  | nil => simp
  | cons e es ih =>
    unfold lookupId at h
    split at h
    · cases h
    · rename_i hne
      intro hmem
      rcases List.mem_cons.mp hmem with h1 | h1
      · rw [← h1] at hne; exact hne rfl
      · exact ih h h1

theorem updateId_keys (i : String) (v : Nat × String) (l : List (String × Nat × String)) :
    (updateId i v l).map (fun e => e.1) = l.map (fun e => e.1) := by
  induction l with
  | nil => rfl
  | cons e es ih =>
    unfold updateId
    split
    · rename_i heq
      simp only [List.map_cons, ih, heq]
    · simp only [List.map_cons, ih]

theorem lookupId_updateId_self (i : String) (v : Nat × String)
    (l : List (String × Nat × String)) (w : Nat × String)
    (h : lookupId i l = some w) : lookupId i (updateId i v l) = some v := by
  induction l with
  | nil => cases h
  | cons e es ih =>
    unfold lookupId at h
    unfold updateId
    split
    · rename_i heq
      unfold lookupId
      rw [if_pos rfl]
    · rename_i hne
      unfold lookupId
      rw [if_neg hne]
      rw [if_neg hne] at h
      exact ih h

theorem lookupId_updateId_ne (i j : String) (v : Nat × String)
    (l : List (String × Nat × String)) (hne : j ≠ i) :
    lookupId j (updateId i v l) = lookupId j l := by
  induction l with
  | nil => rfl
  | cons e es ih =>
    unfold updateId
    by_cases heq : e.1 = i
    · rw [if_pos heq]
      show (if i = j then some v else lookupId j es) =
        if e.1 = j then some e.2 else lookupId j es
      rw [if_neg (Ne.symm hne), if_neg (by rw [heq]; exact Ne.symm hne)]
    · rw [if_neg heq]
      show (if e.1 = j then some e.2 else lookupId j (updateId i v es)) =
        if e.1 = j then some e.2 else lookupId j es
      rw [ih]

theorem mem_updateId (i : String) (v : Nat × String) (l : List (String × Nat × String))
    (e : String × Nat × String)
    (hnd : (l.map (fun x => x.1)).Nodup) (w : Nat × String) (hold : lookupId i l = some w) :
    e ∈ updateId i v l ↔ e = (i, v) ∨ (e ∈ l ∧ e.1 ≠ i) := by
  induction l with
  | nil => cases hold
  | cons hd tl ih =>
    simp only [List.map_cons, List.nodup_cons] at hnd
    unfold updateId
    by_cases heq : hd.1 = i
    · rw [if_pos heq]
      constructor
      · intro hmem
        rcases List.mem_cons.mp hmem with h1 | h1
        · exact Or.inl h1
        · refine Or.inr ⟨List.mem_cons_of_mem hd h1, ?_⟩
          intro habs
          apply hnd.1
          have hmap : e.1 ∈ List.map (fun x => x.1) tl :=
            List.mem_map_of_mem (fun x => x.1) h1
          rw [habs, ← heq] at hmap
          exact hmap
      · intro hmem
        rcases hmem with h1 | ⟨h1, h2⟩
        · rw [h1]; exact List.mem_cons_self _ _
        · rcases List.mem_cons.mp h1 with h3 | h3
          · exact absurd (h3 ▸ heq) h2
          · exact List.mem_cons_of_mem _ h3
    · rw [if_neg heq]
      unfold lookupId at hold
      rw [if_neg heq] at hold
      rw [List.mem_cons, ih hnd.2 hold, List.mem_cons]
      constructor
      · intro hmem
        rcases hmem with h1 | h2 | ⟨h3, h4⟩
        · exact Or.inr ⟨Or.inl h1, h1 ▸ heq⟩
        · exact Or.inl h2
        · exact Or.inr ⟨Or.inr h3, h4⟩
      · intro hmem
        rcases hmem with h1 | ⟨h2 | h2, h3⟩
        · exact Or.inr (Or.inl h1)
        · exact Or.inl h2
        · exact Or.inr (Or.inr ⟨h2, h3⟩)

/-! ### Case equations for `filterStep` -/

theorem passes_basic_parts (img : String) (h : passes_basic img = true) :
    pyStartsWith img "http" = true ∧ containsSub ".svg" (pyLower img) = false ∧
    anyPattern small_size_patterns (pyLower img) = false ∧
    anyPattern exclude_patterns (pyLower img) = false := by
  unfold passes_basic at h
  simp only [Bool.and_eq_true, Bool.not_eq_true'] at h
  exact ⟨h.1.1.1, h.1.1.2, h.1.2, h.2⟩

theorem filterStep_nohttp (st : FilterState) (img : String)
    (h : pyStartsWith img "http" = false) : filterStep st img = st := by
  simp [filterStep, h]

theorem filterStep_dup (st : FilterState) (img : String)
    (hh : pyStartsWith img "http" = true) (h : img ∈ st.seen) : filterStep st img = st := by
  simp [filterStep, hh, h]

theorem filterStep_svg (st : FilterState) (img : String)
    (hh : pyStartsWith img "http" = true) (hns : img ∉ st.seen)
    (hsvg : containsSub ".svg" (pyLower img) = true) :
    filterStep st img = { st with seen := img :: st.seen } := by
  simp [filterStep, hh, hns, hsvg]

theorem filterStep_small (st : FilterState) (img : String)
    (hh : pyStartsWith img "http" = true) (hns : img ∉ st.seen)
    (hsvg : containsSub ".svg" (pyLower img) = false)
    (hsmall : anyPattern small_size_patterns (pyLower img) = true) :
    filterStep st img = { st with seen := img :: st.seen } := by
  simp [filterStep, hh, hns, hsvg, hsmall]

theorem filterStep_excl (st : FilterState) (img : String)
    (hh : pyStartsWith img "http" = true) (hns : img ∉ st.seen)
    (hsvg : containsSub ".svg" (pyLower img) = false)
    (hsmall : anyPattern small_size_patterns (pyLower img) = false)
    (hexcl : anyPattern exclude_patterns (pyLower img) = true) :
    filterStep st img = { st with seen := img :: st.seen } := by
  simp [filterStep, hh, hns, hsvg, hsmall, hexcl]

theorem filterStep_nonidus (st : FilterState) (img : String)
    (hb : passes_basic img = true) (hns : img ∉ st.seen)
    (hidus : idus_hit img = false) :
    filterStep st img = { st with seen := img :: st.seen } := by
  obtain ⟨hh, hsvg, hsmall, hexcl⟩ := passes_basic_parts img hb
  unfold idus_hit at hidus
  simp [filterStep, hh, hns, hsvg, hsmall, hexcl, hidus]

theorem filterStep_nofid (st : FilterState) (img : String)
    (hb : passes_basic img = true) (hns : img ∉ st.seen)
    (hidus : idus_hit img = true) (hfid : fid_of img = none) :
    filterStep st img = { st with seen := img :: st.seen, res := st.res ++ [img] } := by
  obtain ⟨hh, hsvg, hsmall, hexcl⟩ := passes_basic_parts img hb
  unfold idus_hit at hidus
  unfold fid_of at hfid
  simp [filterStep, hh, hns, hsvg, hsmall, hexcl, hidus, hfid]

theorem filterStep_toosmall (st : FilterState) (img : String) (fid : String)
    (hb : passes_basic img = true) (hns : img ∉ st.seen)
    (hidus : idus_hit img = true) (hfid : fid_of img = some fid)
    (hts : too_small img = true) :
    filterStep st img = { st with seen := img :: st.seen } := by
  obtain ⟨hh, hsvg, hsmall, hexcl⟩ := passes_basic_parts img hb
  unfold idus_hit at hidus
  unfold fid_of at hfid
  unfold too_small at hts
  simp [filterStep, hh, hns, hsvg, hsmall, hexcl, hidus, hfid, hts]

theorem filterStep_newid (st : FilterState) (img : String) (fid : String)
    (hb : passes_basic img = true) (hns : img ∉ st.seen)
    (hidus : idus_hit img = true) (hfid : fid_of img = some fid)
    (hts : too_small img = false) (hlook : lookupId fid st.ids = none) :
    filterStep st img =
      { seen := img :: st.seen, ids := (fid, size_of img, img) :: st.ids,
        res := st.res ++ [img] } := by
  obtain ⟨hh, hsvg, hsmall, hexcl⟩ := passes_basic_parts img hb
  unfold idus_hit at hidus
  unfold fid_of at hfid
  unfold too_small at hts
  simp [filterStep, hh, hns, hsvg, hsmall, hexcl, hidus, hfid, hts, hlook, size_of]

theorem filterStep_replace (st : FilterState) (img : String) (fid : String)
    (osz : Nat) (ourl : String)
    (hb : passes_basic img = true) (hns : img ∉ st.seen)
    (hidus : idus_hit img = true) (hfid : fid_of img = some fid)
    (hts : too_small img = false) (hlook : lookupId fid st.ids = some (osz, ourl))
    (hlt : osz < size_of img) :
    filterStep st img =
      { seen := img :: st.seen, ids := updateId fid (size_of img, img) st.ids,
        res := (st.res.erase ourl) ++ [img] } := by
  obtain ⟨hh, hsvg, hsmall, hexcl⟩ := passes_basic_parts img hb
  unfold idus_hit at hidus
  unfold fid_of at hfid
  unfold too_small at hts
  have hlt2 : osz < size_of_low (pyLower img) := hlt
  simp [filterStep, hh, hns, hsvg, hsmall, hexcl, hidus, hfid, hts, hlook, hlt2, size_of]

theorem filterStep_keepold (st : FilterState) (img : String) (fid : String)
    (osz : Nat) (ourl : String)
    (hb : passes_basic img = true) (hns : img ∉ st.seen)
    (hidus : idus_hit img = true) (hfid : fid_of img = some fid)
    (hts : too_small img = false) (hlook : lookupId fid st.ids = some (osz, ourl))
    (hge : ¬ osz < size_of img) :
    filterStep st img = { st with seen := img :: st.seen } := by
  obtain ⟨hh, hsvg, hsmall, hexcl⟩ := passes_basic_parts img hb
  unfold idus_hit at hidus
  unfold fid_of at hfid
  unfold too_small at hts
  have hge2 : ¬ osz < size_of_low (pyLower img) := hge
  simp [filterStep, hh, hns, hsvg, hsmall, hexcl, hidus, hfid, hts, hlook, hge2, size_of]

theorem lookupId_ne_none_of_mem (i : String) (p : Nat × String)
    (l : List (String × Nat × String)) (h : (i, p) ∈ l) : lookupId i l ≠ none := by
  induction l with
  | nil => cases h
  | cons e es ih =>
    unfold lookupId
    split
    · exact fun habs => by cases habs
    · rename_i hne
      rcases List.mem_cons.mp h with h1 | h1
      · exact absurd (congrArg Prod.fst h1.symm) hne
      · exact ih h1

/-- Loop invariant of `_filter_images` over the processed prefix of the input:
the id table entries describe elements of the output, the output holds at most
one URL per file id, and that survivor dominates the declared size of every
qualifying candidate seen so far with the same id. -/
structure FilterInv (processed : List String) (st : FilterState) : Prop where
  ids_wf : ∀ e ∈ st.ids, fid_of e.2.2 = some e.1 ∧ size_of e.2.2 = e.2.1 ∧ e.2.2 ∈ st.res
  ids_keys : (st.ids.map (fun x => x.1)).Nodup
  res_wf : ∀ u ∈ st.res, passes_basic u = true ∧ idus_hit u = true ∧
    (∀ fid, fid_of u = some fid →
      too_small u = false ∧ lookupId fid st.ids = some (size_of u, u))
  res_nodup : st.res.Nodup
  res_seen : ∀ u ∈ st.res, u ∈ st.seen
  seen_max : ∀ v ∈ st.seen, qualifies v = true → ∀ fid, fid_of v = some fid →
    ∃ p, lookupId fid st.ids = some p ∧ size_of v ≤ p.1
  proc_seen : ∀ v ∈ processed, pyStartsWith v "http" = true → v ∈ st.seen

theorem filterInv_seen_only (processed : List String) (st : FilterState) (img : String)
    (h : FilterInv processed st) (hq : qualifies img = false) :
    FilterInv (processed ++ [img]) { st with seen := img :: st.seen } := by
  refine ⟨h.ids_wf, h.ids_keys, h.res_wf, h.res_nodup, ?_, ?_, ?_⟩
  · intro u hu
    exact List.mem_cons_of_mem img (h.res_seen u hu)
  · intro v hv hvq fid hfid
    rcases List.mem_cons.mp hv with h1 | h1
    · rw [h1] at hvq
      rw [hvq] at hq
      cases hq
    · exact h.seen_max v h1 hvq fid hfid
  · intro v hv hhttp
    rcases List.mem_append.mp hv with h1 | h1
    · exact List.mem_cons_of_mem img (h.proc_seen v h1 hhttp)
    · rw [List.mem_singleton.mp h1]
      exact List.mem_cons_self img st.seen

theorem filterInv_step (processed : List String) (st : FilterState) (img : String)
    (h : FilterInv processed st) : FilterInv (processed ++ [img]) (filterStep st img) := by
  by_cases hh : pyStartsWith img "http" = true
  case neg =>
    have hh2 : pyStartsWith img "http" = false := Bool.eq_false_iff.mpr hh
    rw [filterStep_nohttp st img hh2]
    refine ⟨h.ids_wf, h.ids_keys, h.res_wf, h.res_nodup, h.res_seen, h.seen_max, ?_⟩
    intro v hv hhttp
    rcases List.mem_append.mp hv with h1 | h1
    · exact h.proc_seen v h1 hhttp
    · rw [List.mem_singleton.mp h1] at hhttp
      rw [hhttp] at hh2
      cases hh2
  case pos =>
  by_cases hseen : img ∈ st.seen
  · rw [filterStep_dup st img hh hseen]
    refine ⟨h.ids_wf, h.ids_keys, h.res_wf, h.res_nodup, h.res_seen, h.seen_max, ?_⟩
    intro v hv _
    rcases List.mem_append.mp hv with h1 | h1
    · exact h.proc_seen v h1 (by assumption)
    · rw [List.mem_singleton.mp h1]; exact hseen
  by_cases hsvg : containsSub ".svg" (pyLower img) = true
  · rw [filterStep_svg st img hh hseen hsvg]
    exact filterInv_seen_only processed st img h (by simp [qualifies, passes_basic, hsvg])
  have hsvg2 : containsSub ".svg" (pyLower img) = false := Bool.eq_false_iff.mpr hsvg
  by_cases hsmall : anyPattern small_size_patterns (pyLower img) = true
  · rw [filterStep_small st img hh hseen hsvg2 hsmall]
    exact filterInv_seen_only processed st img h (by simp [qualifies, passes_basic, hsmall])
  have hsmall2 : anyPattern small_size_patterns (pyLower img) = false := Bool.eq_false_iff.mpr hsmall
  by_cases hexcl : anyPattern exclude_patterns (pyLower img) = true
  · rw [filterStep_excl st img hh hseen hsvg2 hsmall2 hexcl]
    exact filterInv_seen_only processed st img h (by simp [qualifies, passes_basic, hexcl])
  have hexcl2 : anyPattern exclude_patterns (pyLower img) = false := Bool.eq_false_iff.mpr hexcl
  have hb : passes_basic img = true := by
    simp [passes_basic, hh, hsvg2, hsmall2, hexcl2]
  by_cases hidus : idus_hit img = true
  case neg =>
    have hidus2 : idus_hit img = false := Bool.eq_false_iff.mpr hidus
    rw [filterStep_nonidus st img hb hseen hidus2]
    exact filterInv_seen_only processed st img h (by simp [qualifies, hidus2])
  case pos =>
  rcases hfid : fid_of img with _ | fid
  · -- no extractable file id: append without touching the table
    rw [filterStep_nofid st img hb hseen hidus hfid]
    refine ⟨?_, h.ids_keys, ?_, ?_, ?_, ?_, ?_⟩
    · intro e he
      obtain ⟨h1, h2, h3⟩ := h.ids_wf e he
      exact ⟨h1, h2, List.mem_append_left _ h3⟩
    · intro u hu
      rcases List.mem_append.mp hu with h1 | h1
      · exact h.res_wf u h1
      · rw [List.mem_singleton.mp h1]
        refine ⟨hb, hidus, ?_⟩
        intro fid' hfid'
        rw [hfid] at hfid'
        cases hfid'
    · have himg : img ∉ st.res := fun habs => hseen (h.res_seen img habs)
      simp [List.nodup_append, h.res_nodup, himg]
    · intro u hu
      rcases List.mem_append.mp hu with h1 | h1
      · exact List.mem_cons_of_mem img (h.res_seen u h1)
      · rw [List.mem_singleton.mp h1]
        exact List.mem_cons_self img st.seen
    · intro v hv hvq fid' hfid'
      rcases List.mem_cons.mp hv with h1 | h1
      · rw [h1] at hfid'
        rw [hfid] at hfid'
        cases hfid'
      · exact h.seen_max v h1 hvq fid' hfid'
    · intro v hv hhttp
      rcases List.mem_append.mp hv with h1 | h1
      · exact List.mem_cons_of_mem img (h.proc_seen v h1 hhttp)
      · rw [List.mem_singleton.mp h1]
        exact List.mem_cons_self img st.seen
  · by_cases hts : too_small img = true
    · rw [filterStep_toosmall st img fid hb hseen hidus hfid hts]
      exact filterInv_seen_only processed st img h (by simp [qualifies, hts])
    have hts2 : too_small img = false := Bool.eq_false_iff.mpr hts
    have hq : qualifies img = true := by simp [qualifies, hb, hidus, hts2]
    rcases hlook : lookupId fid st.ids with _ | p
    · -- first URL with this file id
      rw [filterStep_newid st img fid hb hseen hidus hfid hts2 hlook]
      have himg : img ∉ st.res := fun habs => hseen (h.res_seen img habs)
      refine ⟨?_, ?_, ?_, ?_, ?_, ?_, ?_⟩
      · intro e he
        rcases List.mem_cons.mp he with h1 | h1
        · rw [h1]
          exact ⟨hfid, rfl, List.mem_append_right _ (List.mem_singleton_self img)⟩
        · obtain ⟨h2, h3, h4⟩ := h.ids_wf e h1
          exact ⟨h2, h3, List.mem_append_left _ h4⟩
      · simp only [List.map_cons, List.nodup_cons]
        refine ⟨?_, h.ids_keys⟩
        intro habs
        obtain ⟨e, he, hefid⟩ := List.mem_map.mp habs
        apply lookupId_ne_none_of_mem fid e.2 st.ids _ hlook
        rw [← hefid]
        exact he
      · intro u hu
        rcases List.mem_append.mp hu with h1 | h1
        · obtain ⟨hp, hi, hcl⟩ := h.res_wf u h1
          refine ⟨hp, hi, ?_⟩
          intro fid' hfid'
          obtain ⟨hts', hlk'⟩ := hcl fid' hfid'
          refine ⟨hts', ?_⟩
          have hne : fid ≠ fid' := by
            intro habs
            rw [← habs] at hlk'
            rw [hlook] at hlk'
            cases hlk'
          show (if fid = fid' then some (size_of img, img) else lookupId fid' st.ids) = _
          rw [if_neg hne, hlk']
        · rw [List.mem_singleton.mp h1]
          refine ⟨hb, hidus, ?_⟩
          intro fid' hfid'
          rw [hfid] at hfid'
          cases hfid'
          refine ⟨hts2, ?_⟩
          show (if fid = fid then some (size_of img, img) else lookupId fid st.ids) = _
          rw [if_pos rfl]
      · simp [List.nodup_append, h.res_nodup, himg]
      · intro u hu
        rcases List.mem_append.mp hu with h1 | h1
        · exact List.mem_cons_of_mem img (h.res_seen u h1)
        · rw [List.mem_singleton.mp h1]
          exact List.mem_cons_self img st.seen
      · intro v hv hvq fid' hfid'
        rcases List.mem_cons.mp hv with h1 | h1
        · rw [h1] at hfid'
          rw [hfid] at hfid'
          cases hfid'
          refine ⟨(size_of img, img), ?_, ?_⟩
          · show (if fid = fid then some (size_of img, img) else lookupId fid st.ids) = _
            rw [if_pos rfl]
          · rw [h1]
        · obtain ⟨p, hp, hple⟩ := h.seen_max v h1 hvq fid' hfid'
          have hne : fid ≠ fid' := by
            intro habs
            rw [← habs] at hp
            rw [hlook] at hp
            cases hp
          refine ⟨p, ?_, hple⟩
          show (if fid = fid' then some (size_of img, img) else lookupId fid' st.ids) = _
          rw [if_neg hne, hp]
      · intro v hv hhttp
        rcases List.mem_append.mp hv with h1 | h1
        · exact List.mem_cons_of_mem img (h.proc_seen v h1 hhttp)
        · rw [List.mem_singleton.mp h1]
          exact List.mem_cons_self img st.seen
    · -- an entry with this id exists
      rcases p with ⟨osz, ourl⟩
      obtain ⟨hofid, hosz, hores⟩ := h.ids_wf (fid, osz, ourl) (lookupId_mem fid st.ids (osz, ourl) hlook)
      by_cases hlt : osz < size_of img
      · -- replace the smaller stored variant
        rw [filterStep_replace st img fid osz ourl hb hseen hidus hfid hts2 hlook hlt]
        have himg : img ∉ st.res := fun habs => hseen (h.res_seen img habs)
        have himgne : img ≠ ourl := fun habs => hseen (habs ▸ h.res_seen ourl hores)
        have hmemerase : ∀ u, u ∈ st.res.erase ourl ↔ u ≠ ourl ∧ u ∈ st.res := by
          intro u
          exact h.res_nodup.mem_erase_iff
        refine ⟨?_, ?_, ?_, ?_, ?_, ?_, ?_⟩
        · intro e he
          rcases (mem_updateId fid (size_of img, img) st.ids e h.ids_keys _ hlook).mp he with h1 | ⟨h1, h2⟩
          · rw [h1]
            exact ⟨hfid, rfl, List.mem_append_right _ (List.mem_singleton_self img)⟩
          · obtain ⟨h3, h4, h5⟩ := h.ids_wf e h1
            refine ⟨h3, h4, List.mem_append_left _ ?_⟩
            rw [hmemerase]
            refine ⟨?_, h5⟩
            intro habs
            apply h2
            rw [habs] at h3
            rw [h3] at hofid
            exact Option.some.inj hofid
        · rw [updateId_keys]
          exact h.ids_keys
        · intro u hu
          rcases List.mem_append.mp hu with h1 | h1
          · rw [hmemerase] at h1
            obtain ⟨hune, hures⟩ := h1
            obtain ⟨hp, hi, hcl⟩ := h.res_wf u hures
            refine ⟨hp, hi, ?_⟩
            intro fid' hfid'
            obtain ⟨hts', hlk'⟩ := hcl fid' hfid'
            have hne : fid' ≠ fid := by
              intro habs
              rw [habs] at hlk'
              rw [hlook] at hlk'
              exact hune (congrArg Prod.snd (Option.some.inj hlk')).symm
            rw [lookupId_updateId_ne fid fid' (size_of img, img) st.ids hne]
            exact ⟨hts', hlk'⟩
          · rw [List.mem_singleton.mp h1]
            refine ⟨hb, hidus, ?_⟩
            intro fid' hfid'
            rw [hfid] at hfid'
            cases hfid'
            exact ⟨hts2, lookupId_updateId_self fid (size_of img, img) st.ids _ hlook⟩
        · have h1 : (st.res.erase ourl).Nodup := h.res_nodup.erase ourl
          have h2 : img ∉ st.res.erase ourl := by
            rw [hmemerase]
            intro habs
            exact himg habs.2
          simp [List.nodup_append, h1, h2]
        · intro u hu
          rcases List.mem_append.mp hu with h1 | h1
          · rw [hmemerase] at h1
            exact List.mem_cons_of_mem img (h.res_seen u h1.2)
          · rw [List.mem_singleton.mp h1]
            exact List.mem_cons_self img st.seen
        · intro v hv hvq fid' hfid'
          rcases List.mem_cons.mp hv with h1 | h1
          · rw [h1] at hfid'
            rw [hfid] at hfid'
            cases hfid'
            exact ⟨(size_of img, img),
              lookupId_updateId_self fid (size_of img, img) st.ids _ hlook,
              by rw [h1]⟩
          · obtain ⟨p, hp, hple⟩ := h.seen_max v h1 hvq fid' hfid'
            by_cases hne : fid' = fid
            · subst hne
              rw [hlook] at hp
              cases hp
              refine ⟨(size_of img, img),
                lookupId_updateId_self fid' (size_of img, img) st.ids _ hlook, ?_⟩
              exact le_of_lt (lt_of_le_of_lt hple hlt)
            · refine ⟨p, ?_, hple⟩
              rw [lookupId_updateId_ne fid fid' (size_of img, img) st.ids hne]
              exact hp
        · intro v hv hhttp
          rcases List.mem_append.mp hv with h1 | h1
          · exact List.mem_cons_of_mem img (h.proc_seen v h1 hhttp)
          · rw [List.mem_singleton.mp h1]
            exact List.mem_cons_self img st.seen
      · -- stored variant at least as large: drop the newcomer
        rw [filterStep_keepold st img fid osz ourl hb hseen hidus hfid hts2 hlook hlt]
        refine ⟨h.ids_wf, h.ids_keys, h.res_wf, h.res_nodup, ?_, ?_, ?_⟩
        · intro u hu
          exact List.mem_cons_of_mem img (h.res_seen u hu)
        · intro v hv hvq fid' hfid'
          rcases List.mem_cons.mp hv with h1 | h1
          · rw [h1] at hfid'
            rw [hfid] at hfid'
            cases hfid'
            refine ⟨(osz, ourl), hlook, ?_⟩
            rw [h1]
            omega
          · exact h.seen_max v h1 hvq fid' hfid'
        · intro v hv hhttp
          rcases List.mem_append.mp hv with h1 | h1
          · exact List.mem_cons_of_mem img (h.proc_seen v h1 hhttp)
          · rw [List.mem_singleton.mp h1]
            exact List.mem_cons_self img st.seen

theorem filterInv_foldl (l : List String) :
    ∀ (processed : List String) (st : FilterState),
      FilterInv processed st → FilterInv (processed ++ l) (l.foldl filterStep st) := by
  induction l with
  | nil =>
    intro p st h
    simpa using h
  | cons x xs ih =>
    intro p st h
    have h2 := ih (p ++ [x]) (filterStep st x) (filterInv_step p st x h)
    rw [List.append_assoc] at h2
    simpa using h2

theorem filterInv_init : FilterInv [] ⟨[], [], []⟩ := by
  refine ⟨?_, ?_, ?_, ?_, ?_, ?_, ?_⟩ <;> simp

theorem filterInv_final (xs : List String) :
    FilterInv xs (xs.foldl filterStep ⟨[], [], []⟩) := by
  have h := filterInv_foldl xs [] ⟨[], [], []⟩ filterInv_init
  simpa using h

theorem qualifies_parts (v : String) (h : qualifies v = true) :
    passes_basic v = true ∧ idus_hit v = true ∧ too_small v = false := by
  unfold qualifies at h
  simp only [Bool.and_eq_true, Bool.not_eq_true'] at h
  exact ⟨h.1.1, h.1.2, h.2⟩

/-- Claim C4 as literally stated is false when a same-identifier URL without
any size suffix is present (see `C4_counterexample`); amended: among URLs
sharing a content identifier at most one appears in the output of
`_filter_images`, and its declared size dominates every qualifying
same-identifier candidate of the input, where a URL without a size suffix
counts as the original with size 9999 (`size = int(...) if size_match else
9999`); in particular, for the `_100`/`_800` pair on one identifier the output
contains exactly the size-800 URL. -/
theorem C4_per_id_max_size (xs : List String) :
    (∀ u v fid, u ∈ filter_images xs → v ∈ filter_images xs →
      fid_of u = some fid → fid_of v = some fid → u = v) ∧
    (∀ u v fid, u ∈ filter_images xs → v ∈ xs →
      fid_of u = some fid → fid_of v = some fid → qualifies v = true →
      size_of v ≤ size_of u) ∧
    filter_images [u100, u800] = [u800] := by
  have hinv := filterInv_final xs
  have hres : ∀ u, u ∈ filter_images xs → u ∈ (xs.foldl filterStep ⟨[], [], []⟩).res := by
    intro u hu
    exact List.mem_of_mem_take hu
  refine ⟨?_, ?_, ?_⟩
  · intro u v fid hu hv hfu hfv
    obtain ⟨_, _, hclu⟩ := hinv.res_wf u (hres u hu)
    obtain ⟨_, _, hclv⟩ := hinv.res_wf v (hres v hv)
    have h1 := (hclu fid hfu).2
    have h2 := (hclv fid hfv).2
    rw [h1] at h2
    exact congrArg Prod.snd (Option.some.inj h2)
  · intro u v fid hu hv hfu hfv hq
    obtain ⟨_, _, hclu⟩ := hinv.res_wf u (hres u hu)
    have hlu := (hclu fid hfu).2
    have hhttp : pyStartsWith v "http" = true :=
      (passes_basic_parts v (qualifies_parts v hq).1).1
    have hvseen := hinv.proc_seen v hv hhttp
    obtain ⟨p, hp, hple⟩ := hinv.seen_max v hvseen hq fid hfv
    rw [hlu] at hp
    cases Option.some.inj hp
    exact hple
  · rfl

/-- Claim C4, as stated, is false on the code: `uNoSize` and `u800` share the
content identifier `abc123`; `u800` carries the maximum declared size suffix
(800, the only one), yet the output keeps only the suffix-less URL, because a
missing suffix is treated as the original with size 9999. -/
theorem C4_counterexample :
    fid_of uNoSize = some "abc123" ∧ fid_of u800 = some "abc123" ∧
    size_suffix (pyLower u800) = some 800 ∧ size_suffix (pyLower uNoSize) = none ∧
    qualifies u800 = true ∧
    filter_images [uNoSize, u800] = [uNoSize] ∧
    u800 ∉ filter_images [uNoSize, u800] :=
  ⟨rfl, rfl, rfl, rfl, rfl, rfl, by decide⟩

theorem C4_witness :
    u800 ∈ filter_images [u300, u800] ∧ u300 ∈ [u300, u800] ∧
    fid_of u800 = some "abc123" ∧ fid_of u300 = some "abc123" ∧
    qualifies u300 = true ∧ size_of u300 ≤ size_of u800 :=
  ⟨by decide, by decide, rfl, rfl, rfl,
   (C4_per_id_max_size [u300, u800]).2.1 u800 u300 "abc123"
     (by decide) (by decide) rfl rfl rfl⟩

theorem foldl_clean (l : List String) :
    ∀ st : FilterState,
    (∀ u ∈ l, passes_basic u = true ∧ idus_hit u = true ∧
      (∀ fid, fid_of u = some fid → too_small u = false)) →
    l.Nodup →
    (∀ u ∈ l, u ∉ st.seen) →
    (∀ u ∈ l, ∀ fid, fid_of u = some fid → lookupId fid st.ids = none) →
    (∀ u ∈ l, ∀ v ∈ l, ∀ fid, fid_of u = some fid → fid_of v = some fid → u = v) →
    (l.foldl filterStep st).res = st.res ++ l := by
  induction l with
  | nil =>
    intro st _ _ _ _ _
    simp
  | cons u rest ih =>
    intro st hbasic hnodup hseen hids hdist
    obtain ⟨hb, hi, hts⟩ := hbasic u (List.mem_cons_self u rest)
    have hnsu : u ∉ st.seen := hseen u (List.mem_cons_self u rest)
    have hur : u ∉ rest := (List.nodup_cons.mp hnodup).1
    have hb1 : ∀ v ∈ rest, passes_basic v = true ∧ idus_hit v = true ∧
        (∀ fid, fid_of v = some fid → too_small v = false) :=
      fun v hv => hbasic v (List.mem_cons_of_mem u hv)
    have hn1 : rest.Nodup := (List.nodup_cons.mp hnodup).2
    have hd1 : ∀ v ∈ rest, ∀ w ∈ rest, ∀ fid,
        fid_of v = some fid → fid_of w = some fid → v = w :=
      fun v hv w hw fid hf hg =>
        hdist v (List.mem_cons_of_mem u hv) w (List.mem_cons_of_mem u hw) fid hf hg
    rcases hfid : fid_of u with _ | fid
    · have hstep := ih { st with seen := u :: st.seen, res := st.res ++ [u] } hb1 hn1
        (by
          intro v hv habs
          rcases List.mem_cons.mp habs with h1 | h1
          · rw [h1] at hv; exact hur hv
          · exact hseen v (List.mem_cons_of_mem u hv) h1)
        (fun v hv fid' hf => hids v (List.mem_cons_of_mem u hv) fid' hf)
        hd1
      rw [List.foldl_cons, filterStep_nofid st u hb hnsu hi hfid, hstep]
      simp
    · have hts2 : too_small u = false := hts fid hfid
      have hlook : lookupId fid st.ids = none := hids u (List.mem_cons_self u rest) fid hfid
      have hstep := ih
        { seen := u :: st.seen, ids := (fid, size_of u, u) :: st.ids, res := st.res ++ [u] }
        hb1 hn1
        (by
          intro v hv habs
          rcases List.mem_cons.mp habs with h1 | h1
          · rw [h1] at hv; exact hur hv
          · exact hseen v (List.mem_cons_of_mem u hv) h1)
        (by
          intro v hv fid' hf
          show (if fid = fid' then some (size_of u, u) else lookupId fid' st.ids) = none
          have hne : fid ≠ fid' := by
            intro habs
            have heq := hdist u (List.mem_cons_self u rest) v (List.mem_cons_of_mem u hv) fid
              hfid (by rw [habs]; exact hf)
            rw [heq] at hur
            exact hur hv
          rw [if_neg hne]
          exact hids v (List.mem_cons_of_mem u hv) fid' hf)
        hd1
      rw [List.foldl_cons, filterStep_newid st u fid hb hnsu hi hfid hts2 hlook, hstep]
      simp

/-- Claim C5: `_filter_images` is idempotent, and (being a pure function of its
input in this embedding) running it twice on the same candidate list yields the
same output list, elementwise and in order. -/
theorem C5_filter_images_idempotent (xs : List String) :
    filter_images (filter_images xs) = filter_images xs ∧
    filter_images xs = filter_images xs := by
  refine ⟨?_, rfl⟩
  have hinv := filterInv_final xs
  have hsub : ∀ u, u ∈ filter_images xs → u ∈ (xs.foldl filterStep ⟨[], [], []⟩).res :=
    fun u hu => List.mem_of_mem_take hu
  have hclean : ∀ u ∈ filter_images xs, passes_basic u = true ∧ idus_hit u = true ∧
      (∀ fid, fid_of u = some fid → too_small u = false) := by
    intro u hu
    obtain ⟨h1, h2, h3⟩ := hinv.res_wf u (hsub u hu)
    exact ⟨h1, h2, fun fid hf => (h3 fid hf).1⟩
  have hnodup : (filter_images xs).Nodup :=
    List.Nodup.sublist (List.take_sublist 15 _) hinv.res_nodup
  have hdist : ∀ u ∈ filter_images xs, ∀ v ∈ filter_images xs,
      ∀ fid, fid_of u = some fid → fid_of v = some fid → u = v := by
    intro u hu v hv fid hfu hfv
    obtain ⟨_, _, hclu⟩ := hinv.res_wf u (hsub u hu)
    obtain ⟨_, _, hclv⟩ := hinv.res_wf v (hsub v hv)
    have h1 := (hclu fid hfu).2
    have h2 := (hclv fid hfv).2
    rw [h1] at h2
    exact congrArg Prod.snd (Option.some.inj h2)
  have hrun := foldl_clean (filter_images xs) ⟨[], [], []⟩ hclean hnodup
    (by intro v _ habs; exact absurd habs (by simp))
    (by intro v _ fid _; rfl)
    hdist
  show ((filter_images xs).foldl filterStep ⟨[], [], []⟩).res.take 15 = filter_images xs
  rw [hrun]
  show ((xs.foldl filterStep ⟨[], [], []⟩).res.take 15).take 15 = _
  rw [List.take_take, min_self]
  rfl

/-- Claim C9 as stated is false (see `C9_counterexample`); amended: the
`detail_images` of `scrape_product` does not union four capture channels.  When
the position-based DOM scan of the detail area yields at least one candidate,
only those candidates are canonicalized and the network capture is ignored
entirely; the network capture is consulted only as a fallback when that scan
yields nothing; the raw-markup regex scan (`_extract_images_from_html`), the
`__NUXT__` scan (`_extract_images_from_nuxt`) and the attribute/background
style scan (`_extract_images_from_dom`) are defined in the source but have no
call site in `scrape_product`. -/
theorem C9_two_channel_arbitration (posUrls netUrls netUrls2 : List String)
    (h : posUrls ≠ []) :
    select_detail_images posUrls netUrls = select_detail_images posUrls netUrls2 ∧
    select_detail_images posUrls netUrls = filter_images posUrls ∧
    select_detail_images [] netUrls = filter_images_strict netUrls := by
  have hlen : 1 ≤ posUrls.length := by
    cases posUrls with
    | nil => exact absurd rfl h
    | cons a l => simp
  unfold select_detail_images
  rw [if_pos hlen, if_pos hlen, if_neg (by simp)]
  exact ⟨rfl, rfl, rfl⟩

/-- Claim C9, as stated, is false on the code: a URL captured only by the
network channel, which would survive the fallback filtering on its own, is
absent from the result whenever the positional DOM scan produced any
candidate. -/
theorem C9_counterexample :
    filter_images_strict [netUrlEx] = [netUrlEx] ∧
    select_detail_images [posUrlEx] [netUrlEx] = [posUrlEx] ∧
    netUrlEx ∉ select_detail_images [posUrlEx] [netUrlEx] :=
  ⟨rfl, rfl, by decide⟩

theorem C9_witness :
    select_detail_images [posUrlEx] [netUrlEx] = select_detail_images [posUrlEx] [] ∧
    select_detail_images [posUrlEx] [netUrlEx] = filter_images [posUrlEx] ∧
    select_detail_images [] [netUrlEx] = filter_images_strict [netUrlEx] :=
  C9_two_channel_arbitration [posUrlEx] [netUrlEx] [] (by decide)
